import Mathlib

/-!
Shallow embedding of `src/expansion/value.rs` (the `expand_value` function of
the json-ld expansion algorithm) together with the data model it manipulates:
JSON values, literals, language strings, typed values, the keyword/term model
and the error taxonomy. The embedding is parameterised over the identifier
type `T` and the context type `C`; the external collaborator `expand_iri` is
passed in as a function argument.
-/

set_option autoImplicit false

namespace JsonLd

/-- Mirror of `json::number::Number` (category, exponent, mantissa); the
expansion code only copies numbers around, never inspects them. -/
structure JNumber where
  category : Nat
  exponent : Int
  mantissa : Nat
deriving DecidableEq, Repr

/-- Mirror of `json::JsonValue`: `Short` and `String` are both strings
(`as_str` succeeds on both), plus null, number, boolean, object, array. -/
inductive JsonValue where
  | null
  | short (s : String)
  | string (s : String)
  | number (n : JNumber)
  | boolean (b : Bool)
  | object (entries : List (String × JsonValue))
  | array (items : List JsonValue)

/-- `JsonValue::as_str`: succeeds exactly on the two string variants. -/
def JsonValue.as_str : JsonValue → Option String
  | .short s => some s
  | .string s => some s
  | _ => none

/-- `crate::util::as_array`: an array yields its items, anything else a
singleton slice holding the value itself. -/
def as_array : JsonValue → List JsonValue
  | .array items => items
  | v => [v]

/-- The json-ld keywords the value expansion dispatches on, plus some other
keywords standing for the rest of the `Keyword` enum. -/
inductive Keyword where
  | json
  | language
  | direction
  | index
  | type
  | value
  | graph
  | list
  | set
  | id
deriving DecidableEq, Repr

/-- Mirror of `Reference<T>`: a resolved identifier or a blank node id. -/
inductive Reference (T : Type) where
  | id (t : T)
  | blank (b : String)
deriving DecidableEq, Repr

/-- Mirror of `Term<T>`. -/
inductive Term (T : Type) where
  | null
  | ref (r : Reference T)
  | keyword (k : Keyword)
deriving DecidableEq, Repr

/-- Mirror of `Lenient<A>`: a resolved value or an unknown raw string. -/
inductive Lenient (A : Type) where
  | ok (value : A)
  | unknown (s : String)
deriving DecidableEq, Repr

/-- Mirror of `Direction` (`ltr` / `rtl`). -/
inductive Direction where
  | ltr
  | rtl
deriving DecidableEq, Repr

/-- `Direction::try_from(&str)`: "ltr" and "rtl" succeed, all else fails. -/
def Direction.try_from (s : String) : Option Direction :=
  if s = "ltr" then some .ltr
  else if s = "rtl" then some .rtl
  else none

/-- Mirror of `object::Literal`. -/
inductive Literal where
  | null
  | string (s : String)
  | number (n : JNumber)
  | boolean (b : Bool)
  | json (v : JsonValue)

/-- Mirror of `LangString`: string data with optional language and direction. -/
structure LangString where
  data : String
  language : Option String
  direction : Option Direction
deriving DecidableEq, Repr

/-- Mirror of `object::Value<T>`: a typed literal (literal plus set of
datatype references, a `HashSet<T>` in the source) or a language string. -/
inductive Value (T : Type) where
  | literal (lit : Literal) (types : Finset T)
  | langString (ls : LangString)

/-- Mirror of `object::Object<T>` restricted to the only variant the value
expansion produces. -/
inductive Object (T : Type) where
  | value (v : Value T)

/-- Mirror of `Indexed<A>`: a value paired with an optional `@index` string. -/
structure Indexed (A : Type) where
  value : A
  index : Option String

/-- The error codes the value expansion can raise. -/
inductive ErrorCode where
  | invalidValueObjectValue
  | invalidLanguageTaggedString
  | invalidBaseDirection
  | invalidIndexValue
  | invalidTypeValue
  | invalidTypedValue
  | invalidValueObject
  | invalidLanguageTaggedValue
deriving DecidableEq, Repr

/-- Mirror of `Error` (carries the code; `ErrorCode::into()` wraps it). -/
structure Error where
  code : ErrorCode
deriving DecidableEq, Repr

/-- Mirror of `Entry<(&str, Term<T>)>`: the original key string, the expanded
key, and the raw value of the entry. -/
structure Entry (T : Type) where
  key : String × Term T
  value : JsonValue

/-- The mutable locals of `expand_value` during the fold over the entries:
`result`, `index`, `types`, `language`, `direction`. -/
structure ExpandState (T : Type) where
  result : Literal
  index : Option String
  types : Finset T
  language : Option String
  direction : Option Direction

/-- The type of the external `expand_iri` collaborator: context, raw string,
document-relative flag, vocab flag. -/
def IriExpander (C T : Type) : Type :=
  C → String → Bool → Bool → Lenient (Term T)

/-- Step 1 of `expand_value` (value.rs lines 30-50): seed the working literal
from the raw `@value` payload, or the whole payload as a JSON literal when the
input type is the `@json` keyword. -/
def seedLiteral {T : Type} [DecidableEq T]
    (input_type : Option (Lenient (Term T))) (value_entry : JsonValue) :
    Except Error Literal :=
  if input_type = some (.ok (.keyword .json)) then
    .ok (.json value_entry)
  else
    match value_entry with
    | .null => .ok .null
    | .short s => .ok (.string s)
    | .string s => .ok (.string s)
    | .number n => .ok (.number n)
    | .boolean b => .ok (.boolean b)
    | _ => .error ⟨.invalidValueObjectValue⟩

/-- The inner `for ty in value` loop of the `@type` arm (value.rs lines
113-131): expand each element, `@json` overrides the working literal, an id
reference is inserted into the type set, anything else errors. -/
def processTypes {T C : Type} [DecidableEq T] (expand_iri : IriExpander C T)
    (type_scoped_context : C) (value_entry : JsonValue) :
    ExpandState T → List JsonValue → Except Error (ExpandState T)
  | s, [] => .ok s
  | s, ty :: rest =>
    match ty.as_str with
    | some tyStr =>
      match expand_iri type_scoped_context tyStr true true with
      | .ok (.keyword .json) =>
        processTypes expand_iri type_scoped_context value_entry
          ⟨.json value_entry, s.index, s.types, s.language, s.direction⟩ rest
      | .ok (.ref (.id t)) =>
        processTypes expand_iri type_scoped_context value_entry
          ⟨s.result, s.index, insert t s.types, s.language, s.direction⟩ rest
      | _ => .error ⟨.invalidTypedValue⟩
    | none => .error ⟨.invalidTypeValue⟩

/-- The body of the fold over `expanded_entries` (value.rs lines 57-138):
dispatch on the expanded key. -/
def processEntry {T C : Type} [DecidableEq T] (expand_iri : IriExpander C T)
    (type_scoped_context : C) (value_entry : JsonValue)
    (s : ExpandState T) (e : Entry T) : Except Error (ExpandState T) :=
  match e.key.2 with
  | .keyword .language =>
    match e.value.as_str with
    | some v =>
      if v ≠ "@none" then
        .ok ⟨s.result, s.index, s.types, some v, s.direction⟩
      else
        .ok s
    | none => .error ⟨.invalidLanguageTaggedString⟩
  | .keyword .direction =>
    match e.value.as_str with
    | some v =>
      match Direction.try_from v with
      | some d => .ok ⟨s.result, s.index, s.types, s.language, some d⟩
      | none => .error ⟨.invalidBaseDirection⟩
    | none => .error ⟨.invalidBaseDirection⟩
  | .keyword .index =>
    match e.value.as_str with
    | some v => .ok ⟨s.result, some v, s.types, s.language, s.direction⟩
    | none => .error ⟨.invalidIndexValue⟩
  | .keyword .type =>
    processTypes expand_iri type_scoped_context value_entry s (as_array e.value)
  | .keyword .value => .ok s
  | _ => .error ⟨.invalidValueObject⟩

/-- The fold itself: process the entries in order, stopping at the first
error (the `return Err(...)` statements inside the `for` loop). -/
def expandLoop {T C : Type} [DecidableEq T] (expand_iri : IriExpander C T)
    (type_scoped_context : C) (value_entry : JsonValue) :
    ExpandState T → List (Entry T) → Except Error (ExpandState T)
  | s, [] => .ok s
  | s, e :: rest =>
    match processEntry expand_iri type_scoped_context value_entry s e with
    | .ok s' => expandLoop expand_iri type_scoped_context value_entry s' rest
    | .error err => .error err

/-- The tail of `expand_value` after the fold (value.rs lines 146-179): drop
a null literal, enforce language/direction exclusivity with types, build the
language string or the typed literal. -/
def finalize {T : Type} [DecidableEq T] (s : ExpandState T) :
    Except Error (Option (Indexed (Object T))) :=
  let is_empty :=
    match s.result with
    | .null => true
    | _ => false
  if is_empty then
    .ok none
  else if s.language.isSome || s.direction.isSome then
    if s.types ≠ ∅ then
      .error ⟨.invalidValueObject⟩
    else
      match s.result with
      | .string str =>
        .ok (some ⟨.value (.langString ⟨str, s.language, s.direction⟩), s.index⟩)
      | _ => .error ⟨.invalidLanguageTaggedValue⟩
  else
    .ok (some ⟨.value (.literal s.result s.types), s.index⟩)

/-- Mirror of `expand_value` (value.rs lines 23-180), parameterised over the
external `expand_iri` collaborator. -/
def expand_value {T C : Type} [DecidableEq T] (expand_iri : IriExpander C T)
    (input_type : Option (Lenient (Term T))) (type_scoped_context : C)
    (expanded_entries : List (Entry T)) (value_entry : JsonValue) :
    Except Error (Option (Indexed (Object T))) :=
  match seedLiteral input_type value_entry with
  | .error e => .error e
  | .ok seed =>
    match expandLoop expand_iri type_scoped_context value_entry
        ⟨seed, none, ∅, none, none⟩ expanded_entries with
    | .error e => .error e
    | .ok s => finalize s

/-- A concrete `expand_iri` that resolves nothing (used on inputs where the
collaborator is never consulted). -/
def iriNone : IriExpander Unit String :=
  fun _ s _ _ => .unknown s

/-- A concrete `expand_iri` that sends "@json" to the `@json` keyword and any
other string to an id reference to itself. -/
def iriTest : IriExpander Unit String :=
  fun _ s _ _ =>
    if s = "@json" then .ok (.keyword .json) else .ok (.ref (.id s))

/-- Sanity vector: `{"@value": "hello", "@language": "en"}` expands to a
language-tagged string. -/
theorem expand_value_lang_en :
    expand_value iriNone none ()
      [⟨("@language", .keyword .language), .string "en"⟩]
      (JsonValue.string "hello")
      = .ok (some ⟨.value (.langString ⟨"hello", some "en", none⟩), none⟩) := rfl

/-- Sanity vector: `{"@value": null}` expands to nothing. -/
theorem expand_value_plain_null :
    expand_value iriNone none () [] JsonValue.null = .ok none := rfl

/-- The fold over a concatenation processes the first part, then feeds its
final state to the second part (first error stops everything). -/
theorem expandLoop_append {T C : Type} [DecidableEq T] (f : IriExpander C T)
    (ctx : C) (ve : JsonValue) (es₁ es₂ : List (Entry T)) (s : ExpandState T) :
    expandLoop f ctx ve s (es₁ ++ es₂) =
      match expandLoop f ctx ve s es₁ with
      | .ok s' => expandLoop f ctx ve s' es₂
      | .error e => .error e := by
  induction es₁ generalizing s with
  | nil => rfl
  | cons e rest ih =>
    simp only [List.cons_append, expandLoop]
    cases processEntry f ctx ve s e with
    | ok s' => exact ih s'
    | error err => rfl

/-- The inner type loop either leaves the working literal alone or overrides
it with the JSON literal of the raw `@value` payload. -/
theorem processTypes_result {T C : Type} [DecidableEq T] (f : IriExpander C T)
    (ctx : C) (ve : JsonValue) :
    ∀ (tys : List JsonValue) (s s' : ExpandState T),
      processTypes f ctx ve s tys = .ok s' →
      s'.result = s.result ∨ s'.result = .json ve := by
  intro tys
  induction tys with
  | nil =>
    intro s s' h
    cases h
    exact Or.inl rfl
  | cons ty rest ih =>
    intro s s' h
    simp only [processTypes] at h
    split at h
    · split at h
      · rcases ih _ _ h with h' | h' <;> exact Or.inr h'
      · rcases ih _ _ h with h' | h'
        · exact Or.inl h'
        · exact Or.inr h'
      · simp at h
    · simp at h

/-- One fold step either leaves the working literal alone or overrides it
with the JSON literal of the raw `@value` payload. -/
theorem processEntry_result {T C : Type} [DecidableEq T] (f : IriExpander C T)
    (ctx : C) (ve : JsonValue) (s s' : ExpandState T) (e : Entry T)
    (h : processEntry f ctx ve s e = .ok s') :
    s'.result = s.result ∨ s'.result = .json ve := by
  unfold processEntry at h
  split at h
  · split at h
    · split at h <;> (cases h; exact Or.inl rfl)
    · simp at h
  · split at h
    · split at h
      · cases h; exact Or.inl rfl
      · simp at h
    · simp at h
  · split at h
    · cases h; exact Or.inl rfl
    · simp at h
  · exact processTypes_result f ctx ve _ s s' h
  · cases h; exact Or.inl rfl
  · simp at h

/-- The whole fold either leaves the working literal alone or overrides it
with the JSON literal of the raw `@value` payload. -/
theorem expandLoop_result {T C : Type} [DecidableEq T] (f : IriExpander C T)
    (ctx : C) (ve : JsonValue) :
    ∀ (es : List (Entry T)) (s s' : ExpandState T),
      expandLoop f ctx ve s es = .ok s' →
      s'.result = s.result ∨ s'.result = .json ve := by
  intro es
  induction es with
  | nil =>
    intro s s' h
    cases h
    exact Or.inl rfl
  | cons e rest ih =>
    intro s s' h
    simp only [expandLoop] at h
    cases hpe : processEntry f ctx ve s e with
    | ok s₁ =>
      rw [hpe] at h
      rcases ih s₁ s' h with h₁ | h₁
      · rcases processEntry_result f ctx ve s s₁ e hpe with h₂ | h₂
        · exact Or.inl (h₁.trans h₂)
        · exact Or.inr (h₁.trans h₂)
      · exact Or.inr h₁
    | error err =>
      rw [hpe] at h
      simp at h

/-- C1, counterexample: on `{"@value": "hello", "@language": "@none"}` the
result is not the claimed language-string object
`Ok(Some(Indexed(LangString("hello", None, None), None)))`. -/
theorem c1_counterexample :
    expand_value iriNone none ()
      [⟨("@language", .keyword .language), .string "@none"⟩]
      (JsonValue.string "hello")
      ≠ .ok (some ⟨.value (.langString ⟨"hello", none, none⟩), none⟩) := by
  intro h
  have h' : (Except.ok (some ⟨Object.value
        (Value.literal (Literal.string "hello") (∅ : Finset String)), none⟩) :
      Except Error (Option (Indexed (Object String))))
      = .ok (some ⟨.value (.langString ⟨"hello", none, none⟩), none⟩) := h
  injection h' with h₁
  injection h₁ with h₂
  injection h₂ with h₃ h₄
  injection h₃ with h₅
  injection h₅

/-- C1, amended: on `{"@value": "hello", "@language": "@none"}`, the literal
string "@none" is treated as absent (language is not set), so `expand_value`
returns the plain literal object
`Ok(Some(Indexed(TypedLiteral(String("hello"), {}), None)))`, not a
language-string object. -/
theorem c1_none_language_plain_literal :
    expand_value iriNone none ()
      [⟨("@language", .keyword .language), .string "@none"⟩]
      (JsonValue.string "hello")
      = .ok (some ⟨.value (.literal (.string "hello") ∅), none⟩) := rfl

/-- C2, counterexample: after the two entries `@language: "en"` then
`@language: "@none"`, the fold state is not the state obtained from
`@language: "@none"` alone — the later "@none" entry does not reset the
language accumulator, it leaves "en" in place. -/
theorem c2_counterexample :
    expandLoop iriNone () (JsonValue.string "x")
      (⟨.string "x", none, ∅, none, none⟩ : ExpandState String)
      [⟨("@language", .keyword .language), .string "en"⟩,
       ⟨("@language", .keyword .language), .string "@none"⟩]
      ≠ expandLoop iriNone () (JsonValue.string "x")
        (⟨.string "x", none, ∅, none, none⟩ : ExpandState String)
        [⟨("@language", .keyword .language), .string "@none"⟩] := by
  intro h
  have h' : (Except.ok (⟨.string "x", none, ∅, some "en", none⟩ :
        ExpandState String) : Except Error (ExpandState String))
      = .ok (⟨.string "x", none, ∅, none, none⟩ : ExpandState String) := h
  injection h' with h₁
  injection h₁ with hr hi ht hl hd
  injection hl

/-- C2, amended: duplicated entries for the same conceptual field never make
the fold fail, and the accumulated value is last-write-wins for `@index`,
`@direction`, and for `@language` entries whose value is not "@none"; a later
`@language: "@none"` entry is a no-op that leaves the earlier accumulation
state unchanged (it does not reset the language to absent). -/
theorem c2_last_write_wins {T C : Type} [DecidableEq T] (f : IriExpander C T)
    (ctx : C) (ve : JsonValue) (es : List (Entry T)) (k : String)
    (s s' : ExpandState T)
    (h : expandLoop f ctx ve s es = .ok s') :
    (∀ v, expandLoop f ctx ve s (es ++ [⟨(k, .keyword .index), .string v⟩])
       = .ok ⟨s'.result, some v, s'.types, s'.language, s'.direction⟩)
    ∧ (∀ v, v ≠ "@none" →
        expandLoop f ctx ve s (es ++ [⟨(k, .keyword .language), .string v⟩])
          = .ok ⟨s'.result, s'.index, s'.types, some v, s'.direction⟩)
    ∧ (expandLoop f ctx ve s (es ++ [⟨(k, .keyword .language), .string "@none"⟩])
        = .ok s')
    ∧ (expandLoop f ctx ve s (es ++ [⟨(k, .keyword .direction), .string "ltr"⟩])
        = .ok ⟨s'.result, s'.index, s'.types, s'.language, some .ltr⟩)
    ∧ (expandLoop f ctx ve s (es ++ [⟨(k, .keyword .direction), .string "rtl"⟩])
        = .ok ⟨s'.result, s'.index, s'.types, s'.language, some .rtl⟩) := by
  refine ⟨fun v => ?_, fun v hv => ?_, ?_, ?_, ?_⟩
  · simp only [expandLoop_append, h]
    rfl
  · simp only [expandLoop_append, h, expandLoop, processEntry, JsonValue.as_str]
    rw [if_pos hv]
  · simp only [expandLoop_append, h]
    rfl
  · simp only [expandLoop_append, h]
    rfl
  · simp only [expandLoop_append, h]
    rfl

/-- C2, witness: a second `@language` entry overwrites the first. -/
theorem c2_witness :
    expandLoop iriNone () JsonValue.null
      (⟨.null, none, ∅, none, none⟩ : ExpandState String)
      ([⟨("@language", .keyword .language), .string "en"⟩]
        ++ [⟨("@language", .keyword .language), .string "fr"⟩])
      = .ok ⟨.null, none, ∅, some "fr", none⟩ :=
  (c2_last_write_wins iriNone () JsonValue.null
      [⟨("@language", .keyword .language), .string "en"⟩] "@language"
      ⟨.null, none, ∅, none, none⟩ ⟨.null, none, ∅, some "en", none⟩
      rfl).2.1 "fr" (by decide)

/-- C3, counterexample: the seeded literal is Null (`@value` is null, no
`@json` input type hint) and no entry of the fold raises an error, yet the
result is not `Ok(None)`: a `@type` entry resolving to `@json` overrides the
working literal to `Json(null)` and the value is kept. -/
theorem c3_counterexample :
    expand_value iriTest none ()
      [⟨("@type", .keyword .type), .string "@json"⟩] JsonValue.null
      ≠ .ok none := by
  intro h
  have h' : (Except.ok (some ⟨Object.value
        (Value.literal (Literal.json JsonValue.null) (∅ : Finset String)), none⟩) :
      Except Error (Option (Indexed (Object String))))
      = .ok none := h
  injection h' with h₁
  injection h₁

/-- C3, amended: whenever the `@value` payload is null, the input type hint is
not `@json`, the fold over the entries succeeds, and the working literal after
the fold is still Null (that is, no `@type` element resolved to `@json`),
`expand_value` returns `Ok(None)` — dropping the value, not failing —
regardless of which other keys were present among the entries. -/
theorem c3_null_literal_drops {T C : Type} [DecidableEq T] (f : IriExpander C T)
    (ctx : C) (hint : Option (Lenient (Term T))) (es : List (Entry T))
    (s' : ExpandState T)
    (hh : hint ≠ some (.ok (.keyword .json)))
    (h₁ : expandLoop f ctx JsonValue.null ⟨.null, none, ∅, none, none⟩ es = .ok s')
    (h₂ : s'.result = .null) :
    expand_value f hint ctx es JsonValue.null = .ok none := by
  have hs : seedLiteral hint JsonValue.null = .ok .null := by
    unfold seedLiteral
    rw [if_neg hh]
  simp only [expand_value, hs, h₁, finalize, h₂]
  rw [if_pos trivial]

/-- C3, witness: `{"@value": null, "@index": "i", "@language": "en"}` drops
to `Ok(None)` even though index and language entries are present. -/
theorem c3_witness :
    expand_value iriNone none ()
      [⟨("@index", .keyword .index), .string "i"⟩,
       ⟨("@language", .keyword .language), .string "en"⟩]
      JsonValue.null = .ok none :=
  c3_null_literal_drops iriNone () none
    [⟨("@index", .keyword .index), .string "i"⟩,
     ⟨("@language", .keyword .language), .string "en"⟩]
    ⟨.null, some "i", ∅, some "en", none⟩ (by decide) rfl rfl

/-- C4: whenever the fold over the entries completes successfully with
language or direction set and a non-empty set of accumulated types, and the
working literal is not Null, `expand_value` returns
`Err(InvalidValueObject)`; the check runs only after the whole fold, so a
fold reaching such a state never fails mid-loop on this account. -/
theorem c4_type_language_exclusive {T C : Type} [DecidableEq T]
    (f : IriExpander C T) (ctx : C) (hint : Option (Lenient (Term T)))
    (es : List (Entry T)) (ve : JsonValue) (seed : Literal)
    (s' : ExpandState T)
    (h₀ : seedLiteral hint ve = .ok seed)
    (h₁ : expandLoop f ctx ve ⟨seed, none, ∅, none, none⟩ es = .ok s')
    (h₂ : s'.result ≠ .null)
    (h₃ : s'.language ≠ none ∨ s'.direction ≠ none)
    (h₄ : s'.types ≠ ∅) :
    expand_value f hint ctx es ve = .error ⟨.invalidValueObject⟩ := by
  simp only [expand_value, h₀, h₁]
  unfold finalize
  have hie : (match s'.result with | .null => true | _ => false) = false := by
    cases hr : s'.result
    · exact absurd hr h₂
    all_goals rfl
  have hb : (s'.language.isSome || s'.direction.isSome) = true := by
    rcases h₃ with h | h
    · rw [Option.ne_none_iff_isSome] at h
      rw [h, Bool.true_or]
    · rw [Option.ne_none_iff_isSome] at h
      rw [h, Bool.or_true]
  simp only [hie, hb, if_pos h₄, Bool.false_eq_true, if_false, if_true]

/-- C4, witness: `{"@value": "x", "@language": "en", "@type": "http://t"}`
completes the fold (no incremental failure) and then fails with
InvalidValueObject. -/
theorem c4_witness :
    expand_value iriTest none ()
      [⟨("@language", .keyword .language), .string "en"⟩,
       ⟨("@type", .keyword .type), .string "http://t"⟩]
      (JsonValue.string "x") = .error ⟨.invalidValueObject⟩ :=
  c4_type_language_exclusive iriTest () none
    [⟨("@language", .keyword .language), .string "en"⟩,
     ⟨("@type", .keyword .type), .string "http://t"⟩]
    (JsonValue.string "x") (.string "x")
    ⟨.string "x", none, insert "http://t" ∅, some "en", none⟩
    rfl rfl (fun h => Literal.noConfusion h) (Or.inl (by simp)) (by simp)

/-- C5: whenever the fold completes successfully with language or direction
set, an empty set of accumulated types, and a working literal that is
neither Null nor a string, `expand_value` returns
`Err(InvalidLanguageTaggedValue)`. -/
theorem c5_language_needs_string {T C : Type} [DecidableEq T]
    (f : IriExpander C T) (ctx : C) (hint : Option (Lenient (Term T)))
    (es : List (Entry T)) (ve : JsonValue) (seed : Literal)
    (s' : ExpandState T)
    (h₀ : seedLiteral hint ve = .ok seed)
    (h₁ : expandLoop f ctx ve ⟨seed, none, ∅, none, none⟩ es = .ok s')
    (h₂ : s'.result ≠ .null)
    (h₃ : s'.language ≠ none ∨ s'.direction ≠ none)
    (h₄ : s'.types = ∅)
    (h₅ : ∀ str, s'.result ≠ .string str) :
    expand_value f hint ctx es ve = .error ⟨.invalidLanguageTaggedValue⟩ := by
  simp only [expand_value, h₀, h₁]
  unfold finalize
  have hie : (match s'.result with | .null => true | _ => false) = false := by
    cases hr : s'.result
    · exact absurd hr h₂
    all_goals rfl
  have hb : (s'.language.isSome || s'.direction.isSome) = true := by
    rcases h₃ with h | h
    · rw [Option.ne_none_iff_isSome] at h
      rw [h, Bool.true_or]
    · rw [Option.ne_none_iff_isSome] at h
      rw [h, Bool.or_true]
  have hne : ¬ s'.types ≠ ∅ := fun hc => hc h₄
  simp only [hie, hb, if_neg hne, Bool.false_eq_true, if_false, if_true]

/-- C5, witness: `{"@value": true, "@language": "en"}` fails with
InvalidLanguageTaggedValue (a boolean cannot be language-tagged). -/
theorem c5_witness :
    expand_value iriNone none ()
      [⟨("@language", .keyword .language), .string "en"⟩]
      (JsonValue.boolean true) = .error ⟨.invalidLanguageTaggedValue⟩ :=
  c5_language_needs_string iriNone () none
    [⟨("@language", .keyword .language), .string "en"⟩]
    (JsonValue.boolean true) (.boolean true)
    ⟨.boolean true, none, ∅, some "en", none⟩
    rfl rfl (fun h => Literal.noConfusion h) (Or.inl (by simp)) rfl
    (fun _ h => Literal.noConfusion h)

/-- C6: a `@direction` entry sets the direction accumulator to the matching
Direction variant when its value is the string "ltr" or "rtl"
(`Direction.try_from` succeeds exactly there), and any other value — a
non-string, or any other string — makes the whole `expand_value` call fail
with InvalidBaseDirection. -/
theorem c6_direction_entry {T C : Type} [DecidableEq T] (f : IriExpander C T)
    (ctx : C) (ve v : JsonValue) (k : String) (s : ExpandState T) :
    (processEntry f ctx ve s ⟨(k, .keyword .direction), v⟩ =
       match Option.bind v.as_str Direction.try_from with
       | some d => .ok ⟨s.result, s.index, s.types, s.language, some d⟩
       | none => .error ⟨.invalidBaseDirection⟩)
    ∧ (Direction.try_from "ltr" = some .ltr)
    ∧ (Direction.try_from "rtl" = some .rtl)
    ∧ (∀ str, str ≠ "ltr" → str ≠ "rtl" → Direction.try_from str = none)
    ∧ (∀ (hint : Option (Lenient (Term T))) (seed : Literal)
         (es₁ es₂ : List (Entry T)) (s₁ : ExpandState T),
        seedLiteral hint ve = .ok seed →
        expandLoop f ctx ve ⟨seed, none, ∅, none, none⟩ es₁ = .ok s₁ →
        Option.bind v.as_str Direction.try_from = none →
        expand_value f hint ctx (es₁ ++ ⟨(k, .keyword .direction), v⟩ :: es₂) ve
          = .error ⟨.invalidBaseDirection⟩) := by
  have hchar : ∀ s : ExpandState T,
      processEntry f ctx ve s ⟨(k, .keyword .direction), v⟩ =
        match Option.bind v.as_str Direction.try_from with
        | some d => .ok ⟨s.result, s.index, s.types, s.language, some d⟩
        | none => .error ⟨.invalidBaseDirection⟩ := by
    intro s
    cases v
    case short str =>
      cases htf : Direction.try_from str <;>
        simp only [processEntry, JsonValue.as_str, Option.some_bind, htf]
    case string str =>
      cases htf : Direction.try_from str <;>
        simp only [processEntry, JsonValue.as_str, Option.some_bind, htf]
    all_goals rfl
  refine ⟨hchar s, rfl, rfl, fun str h₁ h₂ => ?_, ?_⟩
  · simp [Direction.try_from, h₁, h₂]
  · intro hint seed es₁ es₂ s₁ h₀ h₁ hbad
    simp only [expand_value, h₀, expandLoop_append, h₁, expandLoop,
      hchar s₁, hbad]

/-- C6, witness: `{"@value": "hello", "@direction": "up"}` fails with
InvalidBaseDirection. -/
theorem c6_witness :
    expand_value iriNone none ()
      [⟨("@direction", .keyword .direction), .string "up"⟩]
      (JsonValue.string "hello") = .error ⟨.invalidBaseDirection⟩ :=
  (c6_direction_entry iriNone () (JsonValue.string "hello")
      (JsonValue.string "up") "@direction"
      ⟨.null, none, ∅, none, none⟩).2.2.2.2
    none (.string "hello") [] [] ⟨.string "hello", none, ∅, none, none⟩
    rfl rfl rfl

/-- C7: in Step 1, an `@json` input type hint seeds the working literal to
`Json(payload)` for any payload shape whatsoever; otherwise null, strings
(short or long), numbers and booleans seed the matching literal variant, and
an object or array payload makes `expand_value` return
`Err(InvalidValueObjectValue)` immediately, whatever the entries are. -/
theorem c7_seed_literal {T C : Type} [DecidableEq T] (f : IriExpander C T)
    (ctx : C) (hint : Option (Lenient (Term T))) (ve : JsonValue) :
    (seedLiteral (some (.ok (.keyword .json)) : Option (Lenient (Term T))) ve
       = .ok (.json ve))
    ∧ (hint ≠ some (.ok (.keyword .json)) →
        (seedLiteral hint JsonValue.null = .ok .null)
        ∧ (∀ s, seedLiteral hint (JsonValue.string s) = .ok (.string s))
        ∧ (∀ s, seedLiteral hint (JsonValue.short s) = .ok (.string s))
        ∧ (∀ n, seedLiteral hint (JsonValue.number n) = .ok (.number n))
        ∧ (∀ b, seedLiteral hint (JsonValue.boolean b) = .ok (.boolean b))
        ∧ (∀ l es, expand_value f hint ctx es (JsonValue.object l)
             = .error ⟨.invalidValueObjectValue⟩)
        ∧ (∀ l es, expand_value f hint ctx es (JsonValue.array l)
             = .error ⟨.invalidValueObjectValue⟩)) := by
  constructor
  · rfl
  · intro hh
    have hobj : ∀ l, seedLiteral (T := T) hint (JsonValue.object l)
        = .error ⟨.invalidValueObjectValue⟩ := by
      intro l
      unfold seedLiteral
      rw [if_neg hh]
    have harr : ∀ l, seedLiteral (T := T) hint (JsonValue.array l)
        = .error ⟨.invalidValueObjectValue⟩ := by
      intro l
      unfold seedLiteral
      rw [if_neg hh]
    refine ⟨?_, fun s => ?_, fun s => ?_, fun n => ?_, fun b => ?_,
        fun l es => ?_, fun l es => ?_⟩
    · unfold seedLiteral
      rw [if_neg hh]
    · unfold seedLiteral
      rw [if_neg hh]
    · unfold seedLiteral
      rw [if_neg hh]
    · unfold seedLiteral
      rw [if_neg hh]
    · unfold seedLiteral
      rw [if_neg hh]
    · simp only [expand_value, hobj l]
    · simp only [expand_value, harr l]

/-- C7, witness: without a `@json` hint, an object payload under `@value` is
rejected immediately with InvalidValueObjectValue. -/
theorem c7_witness :
    expand_value iriNone none () []
      (JsonValue.object [("a", JsonValue.null)])
      = .error ⟨.invalidValueObjectValue⟩ :=
  ((c7_seed_literal iriNone () none JsonValue.null).2
      (by decide)).2.2.2.2.2.1 [("a", JsonValue.null)] []

/-- C8: a `@type` entry is processed as the list `as_array(value)`; each
string element is resolved through `expand_iri` with the type-scoped context
and both flags true: resolution to the `@json` keyword overrides the working
literal to `Json(payload)` without touching the accumulated types, resolution
to an id reference inserts it into the types set, any other resolution fails
with InvalidTypedValue, and a non-string element fails with
InvalidTypeValue. -/
theorem c8_type_entry {T C : Type} [DecidableEq T] (f : IriExpander C T)
    (ctx : C) (ve : JsonValue) (k : String) :
    (∀ (s : ExpandState T) (v : JsonValue),
       processEntry f ctx ve s ⟨(k, .keyword .type), v⟩
         = processTypes f ctx ve s (as_array v))
    ∧ (∀ (s : ExpandState T) (x : JsonValue) (ty : String)
         (rest : List JsonValue),
        x.as_str = some ty → f ctx ty true true = .ok (.keyword .json) →
        processTypes f ctx ve s (x :: rest)
          = processTypes f ctx ve
              ⟨.json ve, s.index, s.types, s.language, s.direction⟩ rest)
    ∧ (∀ (s : ExpandState T) (x : JsonValue) (ty : String) (t : T)
         (rest : List JsonValue),
        x.as_str = some ty → f ctx ty true true = .ok (.ref (.id t)) →
        processTypes f ctx ve s (x :: rest)
          = processTypes f ctx ve
              ⟨s.result, s.index, insert t s.types, s.language, s.direction⟩
              rest)
    ∧ (∀ (s : ExpandState T) (x : JsonValue) (ty : String)
         (rest : List JsonValue),
        x.as_str = some ty →
        f ctx ty true true ≠ .ok (.keyword .json) →
        (∀ t, f ctx ty true true ≠ .ok (.ref (.id t))) →
        processTypes f ctx ve s (x :: rest) = .error ⟨.invalidTypedValue⟩)
    ∧ (∀ (s : ExpandState T) (x : JsonValue) (rest : List JsonValue),
        x.as_str = none →
        processTypes f ctx ve s (x :: rest) = .error ⟨.invalidTypeValue⟩) := by
  refine ⟨fun s v => rfl, ?_, ?_, ?_, ?_⟩
  · intro s x ty rest hx hf
    simp only [processTypes, hx, hf]
  · intro s x ty t rest hx hf
    simp only [processTypes, hx, hf]
  · intro s x ty rest hx hj hr
    simp only [processTypes, hx]
  · intro s x rest hx
    simp only [processTypes, hx]

/-- C8, witness: a boolean element in a `@type` array fails with
InvalidTypeValue. -/
theorem c8_witness :
    processTypes iriNone () (JsonValue.string "x")
      (⟨.string "x", none, ∅, none, none⟩ : ExpandState String)
      [JsonValue.boolean true] = .error ⟨.invalidTypeValue⟩ :=
  (c8_type_entry iriNone () (JsonValue.string "x") "@type").2.2.2.2
    ⟨.string "x", none, ∅, none, none⟩ (JsonValue.boolean true) [] rfl

/-- C9: an entry whose expanded key is none of the five recognized keywords
(`@value`, `@type`, `@language`, `@direction`, `@index`) — any other keyword,
an IRI reference, or an unresolved term — makes `expand_value` fail with
InvalidValueObject, while an entry whose expanded key is `@value` itself is
ignored by the fold and causes no error. -/
theorem c9_unrecognized_key {T C : Type} [DecidableEq T] (f : IriExpander C T)
    (ctx : C) (ve : JsonValue) (k : String) :
    (∀ (s : ExpandState T) (key : Term T) (v : JsonValue),
        key ≠ .keyword .value → key ≠ .keyword .type →
        key ≠ .keyword .language → key ≠ .keyword .direction →
        key ≠ .keyword .index →
        processEntry f ctx ve s ⟨(k, key), v⟩ = .error ⟨.invalidValueObject⟩)
    ∧ (∀ (s : ExpandState T) (v : JsonValue),
        processEntry f ctx ve s ⟨(k, .keyword .value), v⟩ = .ok s)
    ∧ (∀ (hint : Option (Lenient (Term T))) (seed : Literal)
         (es₁ es₂ : List (Entry T)) (s₁ : ExpandState T) (key : Term T)
         (v : JsonValue),
        key ≠ .keyword .value → key ≠ .keyword .type →
        key ≠ .keyword .language → key ≠ .keyword .direction →
        key ≠ .keyword .index →
        seedLiteral hint ve = .ok seed →
        expandLoop f ctx ve ⟨seed, none, ∅, none, none⟩ es₁ = .ok s₁ →
        expand_value f hint ctx (es₁ ++ ⟨(k, key), v⟩ :: es₂) ve
          = .error ⟨.invalidValueObject⟩) := by
  have hbad : ∀ (s : ExpandState T) (key : Term T) (v : JsonValue),
      key ≠ .keyword .value → key ≠ .keyword .type →
      key ≠ .keyword .language → key ≠ .keyword .direction →
      key ≠ .keyword .index →
      processEntry f ctx ve s ⟨(k, key), v⟩ = .error ⟨.invalidValueObject⟩ := by
    intro s key v h₁ h₂ h₃ h₄ h₅
    cases key with
    | null => rfl
    | ref r => rfl
    | keyword kk =>
      cases kk
      case value => exact absurd rfl h₁
      case type => exact absurd rfl h₂
      case language => exact absurd rfl h₃
      case direction => exact absurd rfl h₄
      case index => exact absurd rfl h₅
      all_goals rfl
  refine ⟨hbad, fun s v => rfl, ?_⟩
  intro hint seed es₁ es₂ s₁ key v h₁ h₂ h₃ h₄ h₅ h₆ h₇
  simp only [expand_value, h₆, expandLoop_append, h₇, expandLoop,
    hbad s₁ key v h₁ h₂ h₃ h₄ h₅]

/-- C9, witness: an entry whose expanded key is an IRI reference makes
`expand_value` fail with InvalidValueObject. -/
theorem c9_witness :
    expand_value iriNone none ()
      [⟨("http://p", .ref (.id "http://p")), .boolean true⟩]
      (JsonValue.string "x") = .error ⟨.invalidValueObject⟩ :=
  (c9_unrecognized_key iriNone () (JsonValue.string "x") "http://p").2.2
    none (.string "x") [] [] ⟨.string "x", none, ∅, none, none⟩
    (.ref (.id "http://p")) (JsonValue.boolean true)
    (by decide) (by decide) (by decide) (by decide) (by decide) rfl rfl

/-- C10: when the raw `@value` payload is JSON null but the literal is
overridden to a JSON literal — by the `@json` input type hint, or by a
`@type` element resolving to `@json` during the fold — the working literal is
`Json(null)` rather than `Null`, so the empty-value drop does not apply and
`expand_value` returns `Ok(Some(...))` wrapping
`TypedLiteral(Json(null), types)` instead of `Ok(None)` (stated here with no
language and direction accumulated, as the claim's `Ok(Some(...))` outcome
presupposes). -/
theorem c10_json_null_not_dropped {T C : Type} [DecidableEq T]
    (f : IriExpander C T) (ctx : C) :
    (∀ (es : List (Entry T)) (s' : ExpandState T),
       expandLoop f ctx JsonValue.null
           ⟨.json JsonValue.null, none, ∅, none, none⟩ es = .ok s' →
       s'.language = none → s'.direction = none →
       expand_value f (some (.ok (.keyword .json))) ctx es JsonValue.null
         = .ok (some ⟨.value (.literal (.json JsonValue.null) s'.types),
             s'.index⟩))
    ∧ (∀ (hint : Option (Lenient (Term T))) (es : List (Entry T))
         (s' : ExpandState T),
       hint ≠ some (.ok (.keyword .json)) →
       expandLoop f ctx JsonValue.null ⟨.null, none, ∅, none, none⟩ es
         = .ok s' →
       s'.result = .json JsonValue.null →
       s'.language = none → s'.direction = none →
       expand_value f hint ctx es JsonValue.null
         = .ok (some ⟨.value (.literal (.json JsonValue.null) s'.types),
             s'.index⟩)) := by
  constructor
  · intro es s' h hlang hdir
    have hres : s'.result = .json JsonValue.null := by
      rcases expandLoop_result f ctx JsonValue.null es _ s' h with h' | h' <;>
        exact h'
    have hs : seedLiteral (T := T) (some (.ok (.keyword .json)))
        JsonValue.null = .ok (.json JsonValue.null) := rfl
    simp only [expand_value, hs, h]
    simp [finalize, hres, hlang, hdir]
  · intro hint es s' hh h hres hlang hdir
    have hs : seedLiteral (T := T) hint JsonValue.null = .ok .null := by
      unfold seedLiteral
      rw [if_neg hh]
    simp only [expand_value, hs, h]
    simp [finalize, hres, hlang, hdir]

/-- C10, witness: both override paths keep a `Json(null)` value that the
Null-drop would otherwise have discarded. -/
theorem c10_witness :
    (expand_value iriNone (some (.ok (.keyword .json))) () [] JsonValue.null
       = .ok (some ⟨.value (.literal (.json JsonValue.null)
           (∅ : Finset String)), none⟩))
    ∧ (expand_value iriTest none ()
         [⟨("@type", .keyword .type), .string "@json"⟩] JsonValue.null
       = .ok (some ⟨.value (.literal (.json JsonValue.null)
           (∅ : Finset String)), none⟩)) :=
  ⟨(c10_json_null_not_dropped iriNone ()).1 []
      ⟨.json JsonValue.null, none, ∅, none, none⟩ rfl rfl rfl,
   (c10_json_null_not_dropped iriTest ()).2 none
      [⟨("@type", .keyword .type), .string "@json"⟩]
      ⟨.json JsonValue.null, none, ∅, none, none⟩ (by decide) rfl rfl rfl rfl⟩

end JsonLd
